import Mathlib

/-!
Verification of the `GameTracker` program (src/main.py).

The program polls the foreground window title, classifies it as a game via
case-insensitive keyword substring search, accumulates per-day per-title
durations in a two-level dictionary `usage[date][game]`, persists that
dictionary as JSON, and reloads it on startup.

Shallow embedding conventions:
- Python strings are modelled as lists of Unicode code points (`List Nat`);
  `str "..."` converts a Lean literal to that form.
- Python `str.lower()` / `str.upper()` apply the full Unicode case mapping,
  under which one code point can map to several.  They are modelled as
  code-point-to-code-point-list maps that carry the ASCII mapping exactly,
  together with the non-ASCII entries this development exercises; every
  other code point is left unchanged.  Universal statements about case
  mapping are therefore made only on the ASCII fragment, where the model
  is exact; the non-ASCII entries matter only for exhibiting concrete
  behaviour that real Python shows.
- Python `float` durations and `time.time()` instants are modelled as `ℚ`.
- The two `defaultdict` levels are modelled as insertion-ordered association
  lists, with `updAssoc` mirroring `d[k] = v` / `d[k] += v` access (which
  creates missing keys with the default, and updates in place otherwise).
- The tracker's mutable fields `current_game`, `start_time`, `usage` form
  `TrackerState`; one iteration of the `track` loop body is `tick`, taking
  the observed window title and the current clock reading; the mapping from
  clock readings to calendar dates (`time.strftime`) is an abstract
  parameter `dateOf`.
- Python truthiness in `if self.current_game and self.start_time:` is kept:
  an empty-string title or a `0.0` start time fail the guard.
- The backing JSON file is modelled by `FileContent`: missing, undecodable
  (`json.JSONDecodeError`), a top-level non-object, or a parsed top-level
  object whose inner values are either tables or non-tables (a non-table
  makes `games.items()` raise, caught by the generic handler).
-/

namespace GameTracker

/-- A Python string: its list of Unicode code points. -/
abbrev Str := List Nat

/-- Convert a Lean string literal to the code-point model. -/
def str (s : String) : Str := s.data.map Char.toNat

/-- One code point of Python `str.lower()`, as the list of code points it
maps to.  Python uses the full Unicode lowercase mapping; this carries the
ASCII mapping exactly, plus the non-ASCII entries exercised here: U+212A
KELVIN SIGN → "k", and U+0130 LATIN CAPITAL LETTER I WITH DOT ABOVE →
"i" followed by U+0307 COMBINING DOT ABOVE (a one-to-two mapping).  Every
other code point is left unchanged. -/
def lowerCP (n : Nat) : List Nat :=
  if 65 ≤ n ∧ n ≤ 90 then [n + 32]
  else if n = 8490 then [107]
  else if n = 304 then [105, 775]
  else [n]

/-- One code point of Python `str.upper()`, as the list of code points it
maps to.  Python uses the full Unicode uppercase mapping; this carries the
ASCII mapping exactly, plus the non-ASCII entries exercised here: U+017F
LATIN SMALL LETTER LONG S → "S", and U+00DF LATIN SMALL LETTER SHARP S →
"SS" (a one-to-two mapping).  Every other code point is left unchanged. -/
def upperCP (n : Nat) : List Nat :=
  if 97 ≤ n ∧ n ≤ 122 then [n - 32]
  else if n = 383 then [83]
  else if n = 223 then [83, 83]
  else [n]

/-- Python `s.lower()`: concatenate the lowercase mapping of each code
point. -/
def lower : Str → Str
  | [] => []
  | c :: rest => lowerCP c ++ lower rest

/-- Python `s.upper()`: concatenate the uppercase mapping of each code
point. -/
def upper : Str → Str
  | [] => []
  | c :: rest => upperCP c ++ upper rest

/-- Boolean test: `needle` is an initial segment of `hay`. -/
def isPre : Str → Str → Bool
  | [], _ => true
  | _ :: _, [] => false
  | a :: as, b :: bs => a == b && isPre as bs

/-- Python's substring operator `needle in hay`. -/
def inList (needle : Str) : Str → Bool
  | [] => needle.isEmpty
  | c :: rest => isPre needle (c :: rest) || inList needle rest

/-- The substring relation, stated as the spec states it: `hay` contains
`needle` as a contiguous run. -/
def IsSubstr (needle hay : Str) : Prop := ∃ pre post, hay = pre ++ needle ++ post

/-- The set `self.game_keywords` from `GameTracker.__init__` (src/main.py lines 15-21),
in source order. -/
def game_keywords : List Str :=
  [str "steam", str "hl2", str "csgo", str "dota", str "fortnite",
   str "overwatch", str "valorant", str "league", str "minecraft",
   str "battle.net", str "origin", str "ubisoft", str "riot", str "ea",
   str "wow", str "diablo", str "elden", str "gta", str "rockstar",
   str "warframe", str "destiny", str "apex", str "fallout", str "skyrim"]

/-- Method `GameTracker.is_game` (src/main.py lines 56-61): `None` or empty is
falsy; otherwise lower-case and test each keyword with `in`. -/
def is_game (window_title : Option Str) : Bool :=
  match window_title with
  | none => false
  | some t =>
    if t.isEmpty then false
    else game_keywords.any fun keyword => inList keyword (lower t)

/-- Read from an association list, with the default a missing key gets. -/
def getAssocD {α β : Type} [DecidableEq α] (l : List (α × β)) (k : α) (dflt : β) : β :=
  match l with
  | [] => dflt
  | (k1, v1) :: rest => if k1 = k then v1 else getAssocD rest k dflt

/-- Python `defaultdict` write access `d[k] = f(old)`: a missing key is
created at the end holding `f dflt`; an existing key is updated in place. -/
def updAssoc {α β : Type} [DecidableEq α] (l : List (α × β)) (k : α) (dflt : β)
    (f : β → β) : List (α × β) :=
  match l with
  | [] => [(k, f dflt)]
  | (k1, v1) :: rest => if k1 = k then (k, f v1) :: rest else (k1, v1) :: updAssoc rest k dflt f

/-- The inner level of `self.usage`: title → accumulated seconds. -/
abbrev Inner := List (Str × ℚ)

/-- The field `self.usage`: date → title → accumulated seconds, insertion-ordered. -/
abbrev Store := List (Str × Inner)

/-- A well-shaped persisted JSON document has the same form as the store. -/
abbrev Doc := Store

/-- Observe one leaf `usage[date][game]`, 0 when absent (the defaultdict
default). -/
def getLeaf (usage : Store) (date game : Str) : ℚ :=
  getAssocD (getAssocD usage date []) game 0

/-- Assignment `self.usage[date][game] = duration` (the load loop, src/main.py line 31). -/
def setLeaf (usage : Store) (date game : Str) (duration : ℚ) : Store :=
  updAssoc usage date [] fun games => updAssoc games game 0 fun _ => duration

/-- Method `GameTracker.record_session` (src/main.py lines 104-107):
`self.usage[date][game] += duration`, with `date` the calendar date read
from the clock at call time. -/
def record_session (usage : Store) (date game : Str) (duration : ℚ) : Store :=
  updAssoc usage date [] fun games => updAssoc games game 0 fun v => v + duration

/-- Method `GameTracker.save_data` (src/main.py lines 37-43): `json.dump(self.usage)`
serialises the store verbatim, keys in insertion order. -/
def save_data (usage : Store) : Doc := usage

/-- An inner value of the parsed JSON object: a table of numbers, or any
non-table value (on which `games.items()` raises). -/
inductive InnerVal where
  | table (gs : Inner)
  | notTable
deriving DecidableEq

/-- A parsed top-level JSON object, inner values unconstrained. -/
abbrev RawDoc := List (Str × InnerVal)

/-- A well-shaped document, seen as a parsed one. -/
def docRaw (d : Doc) : RawDoc := d.map fun e => (e.1, InnerVal.table e.2)

/-- What `load_data` can find: no file, undecodable bytes, decodable but not
a top-level object, or a top-level object. -/
inductive FileContent where
  | missing
  | notJSON
  | jsonNotObj
  | parsed (d : RawDoc)

/-- Result of `load_data`: the store it leaves behind, and whether a warning
was printed. -/
structure LoadResult where
  store : Store
  warned : Bool
deriving DecidableEq

/-- The load loop (src/main.py lines 29-31): entries in order; a non-table
inner value raises `AttributeError` at `games.items()`, aborting the loop
with the store as loaded so far (caught by the generic handler). -/
def loadRaw (usage : Store) : RawDoc → Store × Bool
  | [] => (usage, false)
  | (date, InnerVal.table gs) :: rest =>
    loadRaw (gs.foldl (fun u q => setLeaf u date q.1 q.2) usage) rest
  | (_, InnerVal.notTable) :: _ => (usage, true)

/-- Method `GameTracker.load_data` (src/main.py lines 23-35): missing file is
silently skipped; `json.JSONDecodeError` warns and leaves the store empty;
any other exception (non-object top level, non-table inner value) warns and
leaves whatever the loop had stored. -/
def load_data (fc : FileContent) : LoadResult :=
  match fc with
  | FileContent.missing => ⟨[], false⟩
  | FileContent.notJSON => ⟨[], true⟩
  | FileContent.jsonNotObj => ⟨[], true⟩
  | FileContent.parsed d =>
    let r := loadRaw [] d
    ⟨r.1, r.2⟩

/-- The tracker's mutable session and aggregate state. -/
structure TrackerState where
  current_game : Option Str
  start_time : Option ℚ
  usage : Store
deriving DecidableEq

/-- One iteration of the `track` loop body (src/main.py lines 70-92),
state-machine portion: `current_window` is what `get_active_window`
returned, `now` is `time.time()`, and `dateOf` is the clock-to-calendar-date
map `time.strftime` applies at record time.  The guards
`if self.current_game and self.start_time:` keep Python truthiness. -/
def tick (dateOf : ℚ → Str) (ts : TrackerState) (current_window : Option Str)
    (now : ℚ) : TrackerState :=
  if is_game current_window then
    if current_window ≠ ts.current_game then
      let usage1 :=
        match ts.current_game, ts.start_time with
        | some g, some s =>
          if g ≠ [] ∧ s ≠ 0 then record_session ts.usage (dateOf now) g (now - s)
          else ts.usage
        | _, _ => ts.usage
      { current_game := current_window, start_time := some now, usage := usage1 }
    else ts
  else
    match ts.current_game, ts.start_time with
    | some g, some s =>
      if g ≠ [] ∧ s ≠ 0 then
        { current_game := none, start_time := none,
          usage := record_session ts.usage (dateOf now) g (now - s) }
      else ts
    | _, _ => ts

/-- Result of `shutdown`: the final state and the list of store snapshots
flushed to disk. -/
structure ShutdownResult where
  state : TrackerState
  flushes : List Doc
deriving DecidableEq

/-- Method `GameTracker.shutdown` (src/main.py lines 125-131): close the open
session if the truthiness guard passes, then `save_data()` once.  The
session fields are not reset. -/
def shutdown (dateOf : ℚ → Str) (ts : TrackerState) (now : ℚ) : ShutdownResult :=
  let ts1 :=
    match ts.current_game, ts.start_time with
    | some g, some s =>
      if g ≠ [] ∧ s ≠ 0 then
        { ts with usage := record_session ts.usage (dateOf now) g (now - s) }
      else ts
    | _, _ => ts
  { state := ts1, flushes := [save_data ts1.usage] }

/-- Every leaf duration in the store is non-negative. -/
abbrev storeNonneg (usage : Store) : Prop := ∀ e ∈ usage, ∀ q ∈ e.2, 0 ≤ q.2

/-- The leaves of a document, as ordered (date, title, seconds) triples. -/
def docLeaves (d : Doc) : List (Str × Str × ℚ) :=
  d.foldr (fun e acc => e.2.map (fun q => (e.1, q.1, q.2)) ++ acc) []

/-- A fixed clock-to-date map for concrete instantiations. -/
def dateOf0 : ℚ → Str := fun _ => str "2024-01-01"

/-- A clock-to-date map that crosses a date boundary between clock 2 and
clock 5, for midnight-spanning instantiations. -/
def dateOfMid : ℚ → Str := fun q => if q = 2 then str "2024-01-01" else str "2024-01-02"

/-- The load loop restricted to a well-shaped document: fold `setLeaf` over
every (date, title, seconds) leaf in document order. -/
def loadDoc (usage : Store) (doc : Doc) : Store :=
  doc.foldl (fun u2 e => e.2.foldl (fun u3 q => setLeaf u3 e.1 q.1 q.2) u2) usage

/-! ## Case-mapping lemmas -/

theorem lowerCP_of_upper {n : Nat} (h : 65 ≤ n ∧ n ≤ 90) : lowerCP n = [n + 32] := by
  simp only [lowerCP]
  rw [if_pos h]

theorem lowerCP_of_ascii_other {n : Nat} (h1 : ¬(65 ≤ n ∧ n ≤ 90)) (h2 : n < 128) :
    lowerCP n = [n] := by
  simp only [lowerCP]
  rw [if_neg h1, if_neg (by omega), if_neg (by omega)]

theorem upperCP_of_lower {n : Nat} (h : 97 ≤ n ∧ n ≤ 122) : upperCP n = [n - 32] := by
  simp only [upperCP]
  rw [if_pos h]

theorem upperCP_of_ascii_other {n : Nat} (h1 : ¬(97 ≤ n ∧ n ≤ 122)) (h2 : n < 128) :
    upperCP n = [n] := by
  simp only [upperCP]
  rw [if_neg h1, if_neg (by omega), if_neg (by omega)]

theorem lowerCP_ne_nil (n : Nat) : lowerCP n ≠ [] := by
  simp only [lowerCP]
  split_ifs <;> simp

theorem upperCP_ne_nil (n : Nat) : upperCP n ≠ [] := by
  simp only [upperCP]
  split_ifs <;> simp

theorem lower_ne_nil {s : Str} (h : s ≠ []) : lower s ≠ [] := by
  cases s with
  | nil => exact absurd rfl h
  | cons a t =>
    show lowerCP a ++ lower t ≠ []
    simp [List.append_eq_nil, lowerCP_ne_nil a]

theorem upper_ne_nil {s : Str} (h : s ≠ []) : upper s ≠ [] := by
  cases s with
  | nil => exact absurd rfl h
  | cons a t =>
    show upperCP a ++ upper t ≠ []
    simp [List.append_eq_nil, upperCP_ne_nil a]

theorem lower_append (a b : Str) : lower (a ++ b) = lower a ++ lower b := by
  induction a with
  | nil => rfl
  | cons c t ih =>
    show lowerCP c ++ lower (t ++ b) = (lowerCP c ++ lower t) ++ lower b
    rw [ih, List.append_assoc]

theorem lower_singleton (n : Nat) : lower [n] = lowerCP n := by
  show lowerCP n ++ lower [] = lowerCP n
  rw [show lower [] = [] from rfl, List.append_nil]

theorem lower_lowerCP {n : Nat} (h : n < 128) : lower (lowerCP n) = lowerCP n := by
  by_cases h1 : 65 ≤ n ∧ n ≤ 90
  · rw [lowerCP_of_upper h1, lower_singleton,
      lowerCP_of_ascii_other (by omega) (by omega)]
  · rw [lowerCP_of_ascii_other h1 h, lower_singleton, lowerCP_of_ascii_other h1 h]

theorem lower_upperCP {n : Nat} (h : n < 128) : lower (upperCP n) = lowerCP n := by
  by_cases h1 : 97 ≤ n ∧ n ≤ 122
  · rw [upperCP_of_lower h1, lower_singleton, lowerCP_of_upper (by omega),
      lowerCP_of_ascii_other (by omega) h]
    have he : n - 32 + 32 = n := by omega
    rw [he]
  · rw [upperCP_of_ascii_other h1 h, lower_singleton]

theorem lower_lower_ascii : ∀ s : Str, (∀ c ∈ s, c < 128) → lower (lower s) = lower s := by
  intro s
  induction s with
  | nil => intro _; rfl
  | cons a t ih =>
    intro h
    have ha : a < 128 := h a (List.mem_cons_self _ _)
    have ht : ∀ c ∈ t, c < 128 := fun c hc => h c (List.mem_cons_of_mem _ hc)
    show lower (lowerCP a ++ lower t) = lowerCP a ++ lower t
    rw [lower_append, lower_lowerCP ha, ih ht]

theorem lower_upper_ascii : ∀ s : Str, (∀ c ∈ s, c < 128) → lower (upper s) = lower s := by
  intro s
  induction s with
  | nil => intro _; rfl
  | cons a t ih =>
    intro h
    have ha : a < 128 := h a (List.mem_cons_self _ _)
    have ht : ∀ c ∈ t, c < 128 := fun c hc => h c (List.mem_cons_of_mem _ hc)
    show lower (upperCP a ++ upper t) = lowerCP a ++ lower t
    rw [lower_append, lower_upperCP ha, ih ht]

/-! ## Substring search lemmas -/

theorem isPre_iff (n : Str) : ∀ h : Str, isPre n h = true ↔ ∃ post, h = n ++ post := by
  induction n with
  | nil => intro h; simp [isPre]
  | cons a as ih =>
    intro h
    cases h with
    | nil => simp [isPre]
    | cons b bs =>
      simp only [isPre, Bool.and_eq_true, beq_iff_eq, ih, List.cons_append, List.cons.injEq]
      constructor
      · rintro ⟨rfl, post, rfl⟩
        exact ⟨post, rfl, rfl⟩
      · rintro ⟨post, rfl, rfl⟩
        exact ⟨rfl, post, rfl⟩

theorem inList_iff (n : Str) : ∀ h : Str, inList n h = true ↔ IsSubstr n h := by
  intro h
  induction h with
  | nil =>
    simp only [inList, IsSubstr, List.isEmpty_iff]
    constructor
    · rintro rfl
      exact ⟨[], [], rfl⟩
    · rintro ⟨pre, post, hp⟩
      have := hp.symm
      simp only [List.append_eq_nil] at this
      exact this.1.2
  | cons c rest ih =>
    simp only [inList, Bool.or_eq_true, isPre_iff, ih]
    constructor
    · rintro (⟨post, hp⟩ | ⟨pre, post, hp⟩)
      · exact ⟨[], post, by simpa using hp⟩
      · exact ⟨c :: pre, post, by simpa using hp⟩
    · rintro ⟨pre, post, hp⟩
      cases pre with
      | nil => exact Or.inl ⟨post, by simpa using hp⟩
      | cons p ps =>
        simp only [List.cons_append, List.cons.injEq] at hp
        exact Or.inr ⟨ps, post, hp.2⟩

/-! ## Claims about the classifier -/

/-- Claim C4: `is_game` returns false on `None` and on the empty string, and
otherwise returns true iff the lower-cased title contains at least one member
of the keyword set as a substring (pure substring containment). -/
theorem is_game_keyword_spec :
    is_game none = false ∧ is_game (some []) = false ∧
    ∀ t : Str, t ≠ [] →
      (is_game (some t) = true ↔ ∃ kw ∈ game_keywords, IsSubstr kw (lower t)) := by
  refine ⟨rfl, rfl, fun t ht => ?_⟩
  simp only [is_game]
  rw [if_neg (by simpa [List.isEmpty_iff] using ht)]
  simp [List.any_eq_true, inList_iff]

/-- Witness for C4 at the title "wowzers": non-empty, and classified as a
game because "wow" occurs inside it as a bare substring. -/
theorem is_game_keyword_spec_check :
    str "wowzers" ≠ [] ∧ is_game (some (str "wowzers")) = true := by
  refine ⟨by decide, ?_⟩
  exact (is_game_keyword_spec.2.2 (str "wowzers") (by decide)).mpr
    ⟨str "wow", by decide, [], str "zers", by decide⟩

/-- Counterexample to claim C9: `is_game` is not case-insensitive over full
Unicode.  The title "ſkyrim" (U+017F LATIN SMALL LETTER LONG S, then
"kyrim") is not classified as a game, but its Python upper-case form is
"SKYRIM" — `'ſ'.upper() = 'S'` — which `is_game` classifies as a game, so
`is_game(s) ≠ is_game(s.upper())` at this title. -/
theorem is_game_unicode_upper_cex :
    is_game (some (str "ſkyrim")) = false ∧
    upper (str "ſkyrim") = str "SKYRIM" ∧
    is_game (some (upper (str "ſkyrim"))) = true := by
  refine ⟨by decide, by decide, by decide⟩

/-- Claim C9 (amended): `is_game` is case-insensitive on every title made of
ASCII code points: it agrees on the title, its lower-cased form, and its
upper-cased form.  (On such titles Python's full Unicode case mapping
coincides with the ASCII mapping; outside ASCII the equality with the
upper-cased form fails, as "ſkyrim" shows.) -/
theorem is_game_case_insensitive_ascii (s : Str) (h : ∀ c ∈ s, c < 128) :
    is_game (some s) = is_game (some (lower s)) ∧
    is_game (some s) = is_game (some (upper s)) := by
  by_cases hs : s = []
  · subst hs; exact ⟨rfl, rfl⟩
  · constructor
    · simp only [is_game]
      rw [if_neg (by simpa [List.isEmpty_iff] using hs),
        if_neg (by simpa [List.isEmpty_iff] using lower_ne_nil hs),
        lower_lower_ascii s h]
    · simp only [is_game]
      rw [if_neg (by simpa [List.isEmpty_iff] using hs),
        if_neg (by simpa [List.isEmpty_iff] using upper_ne_nil hs),
        lower_upper_ascii s h]

/-- Witness for C9 (amended) at the all-ASCII title "Steam - CSGO". -/
theorem is_game_case_insensitive_ascii_check :
    (∀ c ∈ str "Steam - CSGO", c < 128) ∧
    (is_game (some (str "Steam - CSGO")) = is_game (some (lower (str "Steam - CSGO"))) ∧
     is_game (some (str "Steam - CSGO")) = is_game (some (upper (str "Steam - CSGO")))) :=
  ⟨by decide, is_game_case_insensitive_ascii (str "Steam - CSGO") (by decide)⟩

/-- Claim C10: the short keyword "ea" makes `is_game` report common non-game
window titles as games: "Microsoft Teams" is classified as a game because
"ea" occurs inside "teams". -/
theorem is_game_false_positive :
    is_game (some (str "Microsoft Teams")) = true ∧
    str "ea" ∈ game_keywords ∧
    IsSubstr (str "ea") (lower (str "Microsoft Teams")) := by
  refine ⟨by decide, by decide, ⟨str "microsoft t", str "ms", by decide⟩⟩

/-! ## Association-list lemmas -/

section Assoc

variable {α β : Type} [DecidableEq α]

theorem getAssocD_updAssoc_self {l : List (α × β)} {k : α} {dflt : β} {f : β → β} :
    getAssocD (updAssoc l k dflt f) k dflt = f (getAssocD l k dflt) := by
  induction l with
  | nil => simp [updAssoc, getAssocD]
  | cons p rest ih =>
    obtain ⟨k1, v1⟩ := p
    by_cases hk : k1 = k
    · subst hk; simp [updAssoc, getAssocD]
    · simp [updAssoc, getAssocD, hk, ih]

theorem getAssocD_updAssoc_ne {l : List (α × β)} {k k2 : α} {dflt d2 : β} {f : β → β}
    (h : k2 ≠ k) :
    getAssocD (updAssoc l k dflt f) k2 d2 = getAssocD l k2 d2 := by
  induction l with
  | nil => simp [updAssoc, getAssocD, Ne.symm h]
  | cons p rest ih =>
    obtain ⟨k1, v1⟩ := p
    by_cases hk : k1 = k
    · subst hk; simp [updAssoc, getAssocD, Ne.symm h]
    · by_cases hk2 : k1 = k2
      · subst hk2; simp [updAssoc, getAssocD, hk]
      · simp [updAssoc, getAssocD, hk, hk2, ih]

theorem updAssoc_of_not_mem {l : List (α × β)} {k : α} {dflt : β} {f : β → β}
    (h : k ∉ l.map Prod.fst) :
    updAssoc l k dflt f = l ++ [(k, f dflt)] := by
  induction l with
  | nil => rfl
  | cons p rest ih =>
    obtain ⟨k1, v1⟩ := p
    simp only [List.map_cons, List.mem_cons] at h
    push_neg at h
    simp [updAssoc, Ne.symm h.1, ih h.2]

theorem updAssoc_append_last {l : List (α × β)} {k : α} {x dflt : β} {f : β → β}
    (h : k ∉ l.map Prod.fst) :
    updAssoc (l ++ [(k, x)]) k dflt f = l ++ [(k, f x)] := by
  induction l with
  | nil => simp [updAssoc]
  | cons p rest ih =>
    obtain ⟨k1, v1⟩ := p
    simp only [List.map_cons, List.mem_cons] at h
    push_neg at h
    simp [updAssoc, Ne.symm h.1, ih h.2]

theorem updAssoc_forall {Q : β → Prop} {k : α} {dflt : β} {f : β → β}
    (h0 : Q (f dflt)) (hf : ∀ v, Q v → Q (f v)) :
    ∀ l : List (α × β), (∀ p ∈ l, Q p.2) → ∀ p ∈ updAssoc l k dflt f, Q p.2 := by
  intro l
  induction l with
  | nil =>
    intro _ q hq
    simp only [updAssoc, List.mem_singleton] at hq
    subst hq
    exact h0
  | cons p rest ih =>
    obtain ⟨k1, v1⟩ := p
    intro hl q hq
    by_cases hk : k1 = k
    · simp only [updAssoc, if_pos hk] at hq
      rcases List.mem_cons.mp hq with rfl | hq2
      · exact hf v1 (hl (k1, v1) (List.mem_cons_self _ _))
      · exact hl q (List.mem_cons_of_mem _ hq2)
    · simp only [updAssoc, if_neg hk] at hq
      rcases List.mem_cons.mp hq with rfl | hq2
      · exact hl (k1, v1) (List.mem_cons_self _ _)
      · exact ih (fun p hp => hl p (List.mem_cons_of_mem _ hp)) q hq2

theorem getAssocD_of_mem_nodup {l : List (α × β)} {k : α} {v dflt : β}
    (hm : (k, v) ∈ l) (hnd : (l.map Prod.fst).Nodup) :
    getAssocD l k dflt = v := by
  induction l with
  | nil => cases hm
  | cons p rest ih =>
    obtain ⟨k1, v1⟩ := p
    simp only [List.map_cons, List.nodup_cons] at hnd
    rcases List.mem_cons.mp hm with heq | hm2
    · cases heq
      simp [getAssocD]
    · have hk : k1 ≠ k := by
        rintro rfl
        exact hnd.1 (List.mem_map_of_mem Prod.fst hm2)
      simp [getAssocD, hk, ih hm2 hnd.2]

end Assoc

/-! ## Store lemmas -/

theorem getLeaf_record_self (u : Store) (d g : Str) (dur : ℚ) :
    getLeaf (record_session u d g dur) d g = getLeaf u d g + dur := by
  unfold getLeaf record_session
  rw [getAssocD_updAssoc_self, getAssocD_updAssoc_self]

theorem getLeaf_record_ne (u : Store) (d g d2 g2 : Str) (dur : ℚ)
    (h : d2 ≠ d ∨ g2 ≠ g) :
    getLeaf (record_session u d g dur) d2 g2 = getLeaf u d2 g2 := by
  unfold getLeaf record_session
  by_cases hd : d2 = d
  · subst hd
    rcases h with h | h
    · exact absurd rfl h
    · rw [getAssocD_updAssoc_self, getAssocD_updAssoc_ne h]
  · rw [getAssocD_updAssoc_ne hd]

theorem record_session_nonneg {u : Store} {d g : Str} {dur : ℚ}
    (hu : storeNonneg u) (hdur : 0 ≤ dur) :
    storeNonneg (record_session u d g dur) := by
  have inner : ∀ gs : Inner, (∀ q ∈ gs, 0 ≤ q.2) →
      ∀ q ∈ updAssoc gs g 0 (fun v => v + dur), 0 ≤ q.2 := by
    intro gs hgs
    refine updAssoc_forall (by simpa using hdur) ?_ gs hgs
    intro v hv
    exact add_nonneg hv hdur
  unfold record_session
  exact @updAssoc_forall Str Inner _ (fun gs => ∀ q ∈ gs, 0 ≤ q.2) d []
    (fun games => updAssoc games g 0 fun v => v + dur)
    (inner [] (by simp)) inner u hu

/-! ## Claims about recording -/

/-- Claim C2: `record_session` adds the duration onto the existing value at
`usage[today][title]` and touches no other leaf; the bucket is the calendar
date at record time, so a session closed by a tick after midnight is
attributed entirely to the close-time date. -/
theorem record_session_today_additive :
    (∀ (u : Store) (today g : Str) (dur : ℚ),
      getLeaf (record_session u today g dur) today g = getLeaf u today g + dur) ∧
    (∀ (u : Store) (today g d t : Str) (dur : ℚ), d ≠ today ∨ t ≠ g →
      getLeaf (record_session u today g dur) d t = getLeaf u d t) ∧
    (∀ (dateOf : ℚ → Str) (u : Store) (g : Str) (s now : ℚ) (obs : Option Str),
      is_game obs = false → g ≠ [] → s ≠ 0 → dateOf s ≠ dateOf now →
      (tick dateOf ⟨some g, some s, u⟩ obs now).usage
        = record_session u (dateOf now) g (now - s)) := by
  refine ⟨fun u today g dur => getLeaf_record_self u today g dur,
    fun u today g d t dur h => getLeaf_record_ne u today g d t dur h, ?_⟩
  intro dateOf u g s now obs hobs hg hs _
  simp [tick, hobs, hg, hs]

/-- Witness for C2: additivity at a fresh leaf, frame at another date, and a
session opened at clock 2 but closed at clock 5 lands in `dateOfMid 5`'s
bucket even though `dateOfMid 2 ≠ dateOfMid 5`. -/
theorem record_session_today_additive_check :
    (getLeaf (record_session [] (str "2024-01-02") (str "Dota 2") 60)
        (str "2024-01-02") (str "Dota 2")
      = getLeaf [] (str "2024-01-02") (str "Dota 2") + 60) ∧
    (getLeaf (record_session [] (str "2024-01-02") (str "Dota 2") 60)
        (str "2024-01-01") (str "Dota 2")
      = getLeaf [] (str "2024-01-01") (str "Dota 2")) ∧
    (tick dateOfMid ⟨some (str "gta"), some 2, []⟩ none 5).usage
      = record_session [] (dateOfMid 5) (str "gta") (5 - 2) := by
  refine ⟨record_session_today_additive.1 [] _ _ 60,
    record_session_today_additive.2.1 [] _ _ _ _ 60 (Or.inl (by decide)),
    record_session_today_additive.2.2 dateOfMid [] (str "gta") 2 5 none rfl
      (by decide) (by norm_num) ?_⟩
  have h2 : dateOfMid 2 = str "2024-01-01" := if_pos rfl
  have h5 : dateOfMid 5 = str "2024-01-02" := if_neg (by norm_num)
  rw [h2, h5]
  decide

/-- Claim C8: starting from a store whose leaves are all non-negative, and
with the close instant never earlier than the session start, every tracker
operation (`record_session`, a `tick`, `shutdown`) keeps every leaf ≥ 0. -/
theorem tracker_nonneg_invariant :
    (∀ (u : Store) (d g : Str) (dur : ℚ), storeNonneg u → 0 ≤ dur →
      storeNonneg (record_session u d g dur)) ∧
    (∀ (dateOf : ℚ → Str) (ts : TrackerState) (obs : Option Str) (now : ℚ),
      storeNonneg ts.usage → ts.start_time.getD now ≤ now →
      storeNonneg (tick dateOf ts obs now).usage) ∧
    (∀ (dateOf : ℚ → Str) (ts : TrackerState) (now : ℚ),
      storeNonneg ts.usage → ts.start_time.getD now ≤ now →
      storeNonneg (shutdown dateOf ts now).state.usage) := by
  refine ⟨fun u d g dur hu hd => record_session_nonneg hu hd, ?_, ?_⟩
  · intro dateOf ts obs now hu hs
    obtain ⟨cg, st, u⟩ := ts
    rcases cg with _ | g <;> rcases st with _ | s
    · simp only [tick]; split_ifs <;> exact hu
    · simp only [tick]; split_ifs <;> exact hu
    · simp only [tick]; split_ifs <;> exact hu
    · have hrec : storeNonneg (record_session u (dateOf now) g (now - s)) :=
        record_session_nonneg hu (by simpa [sub_nonneg] using hs)
      simp only [tick]; split_ifs <;> first | exact hu | exact hrec
  · intro dateOf ts now hu hs
    obtain ⟨cg, st, u⟩ := ts
    rcases cg with _ | g <;> rcases st with _ | s
    · exact hu
    · exact hu
    · exact hu
    · have hrec : storeNonneg (record_session u (dateOf now) g (now - s)) :=
        record_session_nonneg hu (by simpa [sub_nonneg] using hs)
      simp only [shutdown]; split_ifs <;> first | exact hu | exact hrec

/-- Witness for C8: concrete non-negative starting points stay non-negative
through each operation. -/
theorem tracker_nonneg_invariant_check :
    storeNonneg (record_session [] (str "2024-01-01") (str "gta") 1) ∧
    storeNonneg (tick dateOf0 ⟨some (str "gta"), some 2, []⟩ none 5).usage ∧
    storeNonneg (shutdown dateOf0 ⟨some (str "gta"), some 2, []⟩ 5).state.usage := by
  refine ⟨tracker_nonneg_invariant.1 [] _ _ 1 (by simp) (by norm_num),
    tracker_nonneg_invariant.2.1 dateOf0 _ none 5 (by simp) (by norm_num),
    tracker_nonneg_invariant.2.2 dateOf0 _ 5 (by simp) (by norm_num)⟩

/-! ## Load and save lemmas -/

theorem setLeaf_new {u : Store} {d t : Str} {v : ℚ} (hd : d ∉ u.map Prod.fst) :
    setLeaf u d t v = u ++ [(d, [(t, v)])] := by
  unfold setLeaf
  rw [updAssoc_of_not_mem hd]
  rfl

theorem setLeaf_grow {u : Store} {d t : Str} {acc : Inner} {v : ℚ}
    (hd : d ∉ u.map Prod.fst) (ht : t ∉ acc.map Prod.fst) :
    setLeaf (u ++ [(d, acc)]) d t v = u ++ [(d, acc ++ [(t, v)])] := by
  unfold setLeaf
  rw [updAssoc_append_last hd, updAssoc_of_not_mem ht]

theorem foldl_setLeaf_acc {d : Str} :
    ∀ (gs acc : Inner) (u : Store), d ∉ u.map Prod.fst →
      ((acc ++ gs).map Prod.fst).Nodup →
      gs.foldl (fun u2 q => setLeaf u2 d q.1 q.2) (u ++ [(d, acc)])
        = u ++ [(d, acc ++ gs)] := by
  intro gs
  induction gs with
  | nil =>
    intro acc u hd _
    simp
  | cons q gs2 ih =>
    obtain ⟨t, v⟩ := q
    intro acc u hd hnd
    have ht : t ∉ acc.map Prod.fst := by
      intro hmem
      rw [List.map_append] at hnd
      exact (List.nodup_append.mp hnd).2.2 hmem (by simp)
    rw [List.foldl_cons]
    rw [setLeaf_grow hd ht]
    have hnd2 : (((acc ++ [(t, v)]) ++ gs2).map Prod.fst).Nodup := by
      simpa [List.append_assoc] using hnd
    rw [ih (acc ++ [(t, v)]) u hd hnd2]
    simp

theorem loadRaw_docRaw_append :
    ∀ (doc : Doc) (u : Store) (tl : RawDoc),
      loadRaw u (docRaw doc ++ tl) = loadRaw (loadDoc u doc) tl := by
  intro doc
  induction doc with
  | nil => intro u tl; rfl
  | cons e rest ih =>
    obtain ⟨d, gs⟩ := e
    intro u tl
    simp only [docRaw, List.map_cons, List.cons_append, loadRaw, loadDoc, List.foldl_cons]
    exact ih _ tl

theorem loadRaw_docRaw (doc : Doc) (u : Store) :
    loadRaw u (docRaw doc) = (loadDoc u doc, false) := by
  have h := loadRaw_docRaw_append doc u []
  rw [List.append_nil] at h
  exact h

theorem loadDoc_wf :
    ∀ (doc : Doc) (u : Store),
      (doc.map Prod.fst).Nodup →
      (∀ e ∈ doc, (e.2.map Prod.fst).Nodup) →
      (∀ e ∈ doc, e.1 ∉ u.map Prod.fst) →
      loadDoc u doc = u ++ doc.filter (fun e => !e.2.isEmpty) := by
  intro doc
  induction doc with
  | nil =>
    intro u _ _ _
    simp [loadDoc]
  | cons e rest ih =>
    obtain ⟨d, gs⟩ := e
    intro u hnd hinner hdis
    simp only [List.map_cons, List.nodup_cons] at hnd
    simp only [loadDoc, List.foldl_cons]
    by_cases hgs : gs = []
    · subst hgs
      simp only [List.foldl_nil]
      have hr := ih u hnd.2 (fun e he => hinner e (List.mem_cons_of_mem _ he))
        (fun e he => hdis e (List.mem_cons_of_mem _ he))
      simp only [loadDoc] at hr
      rw [hr]
      simp [List.filter_cons]
    · have hd : d ∉ u.map Prod.fst := hdis (d, gs) (List.mem_cons_self _ _)
      have hgnd : (gs.map Prod.fst).Nodup := hinner (d, gs) (List.mem_cons_self _ _)
      obtain ⟨q, gs2, rfl⟩ := List.exists_cons_of_ne_nil hgs
      obtain ⟨t, v⟩ := q
      rw [List.foldl_cons, setLeaf_new hd,
        foldl_setLeaf_acc gs2 [(t, v)] u hd (by simpa using hgnd)]
      have hdis2 : ∀ e ∈ rest, e.1 ∉ (u ++ [(d, [(t, v)] ++ gs2)]).map Prod.fst := by
        intro e he
        rw [List.map_append]
        simp only [List.mem_append, List.map_cons, List.map_nil, List.mem_singleton]
        rintro (h | h)
        · exact hdis e (List.mem_cons_of_mem _ he) h
        · exact hnd.1 (h ▸ List.mem_map_of_mem Prod.fst he)
      have hr := ih (u ++ [(d, [(t, v)] ++ gs2)]) hnd.2
        (fun e he => hinner e (List.mem_cons_of_mem _ he)) hdis2
      simp only [loadDoc] at hr
      rw [hr]
      simp [List.filter_cons, List.append_assoc]

theorem docLeaves_filter (doc : Doc) :
    docLeaves (doc.filter fun e => !e.2.isEmpty) = docLeaves doc := by
  induction doc with
  | nil => rfl
  | cons e rest ih =>
    obtain ⟨d, gs⟩ := e
    by_cases hgs : gs = []
    · subst hgs
      simpa [List.filter_cons, docLeaves] using ih
    · have h1 : gs.isEmpty = false := by
        rw [Bool.eq_false_iff, Ne, List.isEmpty_iff]
        exact hgs
      simp only [List.filter_cons, h1, Bool.not_false, if_pos]
      simp only [docLeaves, List.foldr_cons] at ih ⊢
      rw [ih]

/-! ## Claims about persistence -/

/-- Claim C7: for a well-formed persisted document (unique date keys, unique
title keys per date), saving the result of loading it yields a document with
exactly the same (date, title, seconds) leaf triples. -/
theorem save_load_roundtrip (doc : Doc)
    (h1 : (doc.map Prod.fst).Nodup)
    (h2 : ∀ e ∈ doc, (e.2.map Prod.fst).Nodup) :
    docLeaves (save_data (load_data (FileContent.parsed (docRaw doc))).store)
      = docLeaves doc := by
  have hload : (load_data (FileContent.parsed (docRaw doc))).store = loadDoc [] doc := by
    simp [load_data, loadRaw_docRaw]
  rw [hload, loadDoc_wf doc [] h1 h2 (by simp)]
  simp only [save_data, List.nil_append]
  exact docLeaves_filter doc

/-- Witness for C7 at a two-date document. -/
theorem save_load_roundtrip_check :
    docLeaves (save_data (load_data (FileContent.parsed (docRaw
        [(str "2024-01-01", [(str "Dota 2", 120), (str "csgo", 30)]),
         (str "2024-01-02", [(str "Dota 2", 60)])]))).store)
      = docLeaves [(str "2024-01-01", [(str "Dota 2", 120), (str "csgo", 30)]),
         (str "2024-01-02", [(str "Dota 2", 60)])] :=
  save_load_roundtrip _ (by decide) (by decide)

/-- Claim C5: loading a well-formed document into the initially empty store
assigns each leaf by replacement (the document's value, not a sum with the
zero default), and the spec's load-record-flush scenario produces exactly
the expected document. -/
theorem load_assigns_leaves :
    (∀ (doc : Doc) (d : Str) (gs : Inner) (t : Str) (v : ℚ),
      (doc.map Prod.fst).Nodup →
      (∀ e ∈ doc, (e.2.map Prod.fst).Nodup) →
      (d, gs) ∈ doc → (t, v) ∈ gs →
      getLeaf (load_data (FileContent.parsed (docRaw doc))).store d t = v) ∧
    save_data (record_session
        (load_data (FileContent.parsed (docRaw
          [(str "2024-01-01", [(str "Dota 2", 120)])]))).store
        (str "2024-01-02") (str "Dota 2") 60)
      = [(str "2024-01-01", [(str "Dota 2", 120)]),
         (str "2024-01-02", [(str "Dota 2", 60)])] := by
  constructor
  · intro doc d gs t v h1 h2 hmem hleaf
    have hload : (load_data (FileContent.parsed (docRaw doc))).store
        = doc.filter (fun e => !e.2.isEmpty) := by
      simp [load_data, loadRaw_docRaw, loadDoc_wf doc [] h1 h2 (by simp)]
    rw [hload]
    unfold getLeaf
    have hne : gs.isEmpty = false := by
      cases gs with
      | nil => cases hleaf
      | cons a l => rfl
    have hmemf : (d, gs) ∈ doc.filter (fun e => !e.2.isEmpty) := by
      rw [List.mem_filter]
      exact ⟨hmem, by simp [hne]⟩
    have hndf : ((doc.filter fun e => !e.2.isEmpty).map Prod.fst).Nodup :=
      h1.sublist ((List.filter_sublist doc).map Prod.fst)
    rw [getAssocD_of_mem_nodup hmemf hndf]
    exact getAssocD_of_mem_nodup hleaf (h2 (d, gs) hmem)
  · norm_num [load_data, loadRaw, docRaw, setLeaf, updAssoc, record_session, save_data, str]
    all_goals decide

/-- Witness for C5: the pre-existing leaf is loaded back verbatim. -/
theorem load_assigns_leaves_check :
    getLeaf (load_data (FileContent.parsed (docRaw
        [(str "2024-01-01", [(str "Dota 2", 120)])]))).store
      (str "2024-01-01") (str "Dota 2") = 120 :=
  load_assigns_leaves.1 _ (str "2024-01-01") [(str "Dota 2", 120)] (str "Dota 2") 120
    (by decide) (by decide) (by simp) (by simp)

/-- Counterexample to claim C6: a decodable but structurally invalid
document (its second entry's value is not a table) leaves the store
non-empty — the leaves loaded before the bad entry are kept, so load does
not yield an empty `UsageStore` for every corrupted backing store. -/
theorem load_corrupt_nonempty :
    (load_data (FileContent.parsed
        [(str "2024-01-01", InnerVal.table [(str "a", 5)]),
         (str "bad", InnerVal.notTable)])).store ≠ []
    ∧ (load_data (FileContent.parsed
        [(str "2024-01-01", InnerVal.table [(str "a", 5)]),
         (str "bad", InnerVal.notTable)])).warned = true := by
  constructor
  · intro h
    norm_num [load_data, loadRaw, setLeaf, updAssoc] at h
  · rfl

/-- Claim C6 (amended): undecodable content and a non-object top level warn
and yield an empty store; a missing backing store silently yields an empty
store; a decodable document with a structurally invalid entry warns and
never propagates the error, but keeps the leaves loaded before that entry
(possibly a non-empty store). -/
theorem load_error_handling :
    load_data FileContent.notJSON = ⟨[], true⟩ ∧
    load_data FileContent.missing = ⟨[], false⟩ ∧
    load_data FileContent.jsonNotObj = ⟨[], true⟩ ∧
    ∀ (good : Doc) (d : Str) (rest : RawDoc),
      load_data (FileContent.parsed (docRaw good ++ (d, InnerVal.notTable) :: rest))
        = ⟨loadDoc [] good, true⟩ := by
  refine ⟨rfl, rfl, rfl, ?_⟩
  intro good d rest
  have h := loadRaw_docRaw_append good [] ((d, InnerVal.notTable) :: rest)
  simp only [load_data, h]
  rfl

/-! ## Claims about the state machine -/

/-- Claim C1: one poll tick follows the five-row transition table.  An
`Active(t, s)` state is one the guard `if self.current_game and
self.start_time:` recognises, i.e. `t` non-empty and `s ≠ 0` (every state
the loop itself creates has `t` a matched game title and `s` a clock
reading).  Row by row: Idle + game opens a session at `now`; Active + same
game title is a no-op; Active + different game title records `now - s` for
the old title and reopens at `now` (so the closed and opened intervals
share the single endpoint `now`); Active + non-game/unreadable records
`now - s` and returns to Idle; Idle + non-game is a no-op. -/
theorem tick_transition_table (dateOf : ℚ → Str) (u : Store) (now : ℚ) :
    (∀ w, is_game (some w) = true →
      tick dateOf ⟨none, none, u⟩ (some w) now = ⟨some w, some now, u⟩) ∧
    (∀ g s, is_game (some g) = true →
      tick dateOf ⟨some g, some s, u⟩ (some g) now = ⟨some g, some s, u⟩) ∧
    (∀ g s w, is_game (some w) = true → w ≠ g → g ≠ [] → s ≠ 0 →
      tick dateOf ⟨some g, some s, u⟩ (some w) now
        = ⟨some w, some now, record_session u (dateOf now) g (now - s)⟩) ∧
    (∀ g s obs, is_game obs = false → g ≠ [] → s ≠ 0 →
      tick dateOf ⟨some g, some s, u⟩ obs now
        = ⟨none, none, record_session u (dateOf now) g (now - s)⟩) ∧
    (∀ obs, is_game obs = false →
      tick dateOf ⟨none, none, u⟩ obs now = ⟨none, none, u⟩) := by
  refine ⟨?_, ?_, ?_, ?_, ?_⟩
  · intro w hw
    simp [tick, hw]
  · intro g s hg
    simp [tick, hg]
  · intro g s w hw hne hg hs
    simp [tick, hw, hne, hg, hs]
  · intro g s obs hobs hg hs
    simp [tick, hobs, hg, hs]
  · intro obs hobs
    simp [tick, hobs]

/-- Witness for C1: one concrete instance of each table row, mirroring the
spec's `[None, "Steam - CSGO", "Steam - CSGO", "Notepad"]` scenario plus a
game-to-game switch. -/
theorem tick_transition_table_check :
    (tick dateOf0 ⟨none, none, []⟩ (some (str "Steam - CSGO")) 15
      = ⟨some (str "Steam - CSGO"), some 15, []⟩) ∧
    (tick dateOf0 ⟨some (str "Steam - CSGO"), some 15, []⟩ (some (str "Steam - CSGO")) 30
      = ⟨some (str "Steam - CSGO"), some 15, []⟩) ∧
    (tick dateOf0 ⟨some (str "dota"), some 10, []⟩ (some (str "csgo")) 25
      = ⟨some (str "csgo"), some 25, record_session [] (dateOf0 25) (str "dota") (25 - 10)⟩) ∧
    (tick dateOf0 ⟨some (str "Steam - CSGO"), some 15, []⟩ (some (str "Notepad")) 45
      = ⟨none, none, record_session [] (dateOf0 45) (str "Steam - CSGO") (45 - 15)⟩) ∧
    (tick dateOf0 ⟨none, none, []⟩ none 60 = ⟨none, none, []⟩) :=
  ⟨(tick_transition_table dateOf0 [] 15).1 _ (by decide),
   (tick_transition_table dateOf0 [] 30).2.1 _ _ (by decide),
   (tick_transition_table dateOf0 [] 25).2.2.1 _ _ _ (by decide) (by decide) (by decide)
     (by norm_num),
   (tick_transition_table dateOf0 [] 45).2.2.2.1 _ _ _ (by decide) (by decide) (by norm_num),
   (tick_transition_table dateOf0 [] 60).2.2.2.2 _ (by decide)⟩

/-- Counterexample to claim C3's "transitions to Idle": after `shutdown`
while `Active("Valorant", 1000)` at clock 1100, the session fields are not
reset — `current_game` is still `some "Valorant"`, not `none` (the Python
`shutdown` records and flushes but never clears `current_game` or
`start_time`). -/
theorem shutdown_not_idle :
    (shutdown dateOf0 ⟨some (str "Valorant"), some 1000, []⟩ 1100).state.current_game
      = some (str "Valorant") ∧
    (shutdown dateOf0 ⟨some (str "Valorant"), some 1000, []⟩ 1100).state.current_game
      ≠ none := by
  have h : (shutdown dateOf0 ⟨some (str "Valorant"), some 1000, []⟩ 1100).state.current_game
      = some (str "Valorant") := by
    simp only [shutdown]
    split_ifs <;> rfl
  exact ⟨h, by rw [h]; simp⟩

/-- Claim C3 (amended): termination while `Active(t, s)` records `now - s`
for `t` into today's bucket and performs exactly one flush; the in-memory
session fields keep their values instead of being reset to Idle (the
process exits right after, so the session is closed for accounting
purposes only).  In particular, termination while `Active("Valorant", t0)`
at `now = t0 + 100` adds 100 seconds to today's "Valorant" entry. -/
theorem shutdown_records_and_flushes_once :
    (∀ (dateOf : ℚ → Str) (u : Store) (g : Str) (s now : ℚ), g ≠ [] → s ≠ 0 →
      shutdown dateOf ⟨some g, some s, u⟩ now
        = ⟨⟨some g, some s, record_session u (dateOf now) g (now - s)⟩,
           [save_data (record_session u (dateOf now) g (now - s))]⟩) ∧
    (∀ (dateOf : ℚ → Str) (ts : TrackerState) (now : ℚ),
      (shutdown dateOf ts now).flushes.length = 1) ∧
    (∀ (dateOf : ℚ → Str) (u : Store) (t0 : ℚ), t0 ≠ 0 →
      getLeaf (shutdown dateOf ⟨some (str "Valorant"), some t0, u⟩ (t0 + 100)).state.usage
          (dateOf (t0 + 100)) (str "Valorant")
        = getLeaf u (dateOf (t0 + 100)) (str "Valorant") + 100) := by
  have h1 : ∀ (dateOf : ℚ → Str) (u : Store) (g : Str) (s now : ℚ), g ≠ [] → s ≠ 0 →
      shutdown dateOf ⟨some g, some s, u⟩ now
        = ⟨⟨some g, some s, record_session u (dateOf now) g (now - s)⟩,
           [save_data (record_session u (dateOf now) g (now - s))]⟩ := by
    intro dateOf u g s now hg hs
    simp [shutdown, hg, hs, save_data]
  refine ⟨h1, fun dateOf ts now => rfl, ?_⟩
  intro dateOf u t0 ht0
  rw [h1 dateOf u (str "Valorant") t0 (t0 + 100) (by decide) ht0]
  have hd : t0 + 100 - t0 = (100 : ℚ) := by ring
  simp only [hd]
  exact getLeaf_record_self u (dateOf (t0 + 100)) (str "Valorant") 100

/-- Witness for C3 (amended) at `Active("Valorant", 1000)` closed at clock
1100: the recorded duration is 100 and exactly one flush happens. -/
theorem shutdown_records_and_flushes_once_check :
    (shutdown dateOf0 ⟨some (str "Valorant"), some 1000, []⟩ 1100
      = ⟨⟨some (str "Valorant"), some 1000,
          record_session [] (dateOf0 1100) (str "Valorant") (1100 - 1000)⟩,
         [save_data (record_session [] (dateOf0 1100) (str "Valorant") (1100 - 1000))]⟩) ∧
    (shutdown dateOf0 ⟨some (str "Valorant"), some 1000, []⟩ 1100).flushes.length = 1 ∧
    getLeaf (shutdown dateOf0 ⟨some (str "Valorant"), some 1000, []⟩ (1000 + 100)).state.usage
        (dateOf0 (1000 + 100)) (str "Valorant")
      = getLeaf [] (dateOf0 (1000 + 100)) (str "Valorant") + 100 :=
  ⟨shutdown_records_and_flushes_once.1 dateOf0 [] _ 1000 1100 (by decide) (by norm_num),
   shutdown_records_and_flushes_once.2.1 dateOf0 _ 1100,
   shutdown_records_and_flushes_once.2.2 dateOf0 [] 1000 (by norm_num)⟩

end GameTracker
